import Mathlib

/-!
Verification of the poor-tools web installer's template/include resolution
pipeline, shallowly embedded from `src/poor_installer_web/app.py` and
`src/main.py`.

Python strings are modelled as `List Char` (`Str`), and the filesystem visible
to the include resolver as a function from include path to a `FileResult`
(missing file, existing-but-unreadable file, or readable content).
-/

abbrev Str := List Char

/-- Python `str` default whitespace set used by `str.strip()` / `str.rstrip()`
(the ASCII part, which is all the code ever meets). -/
def isPyWs (c : Char) : Bool :=
  c = ' ' || c = '\t' || c = '\n' || c = '\r' || c = '\x0b' || c = '\x0c'

/-- Leading-whitespace removal (Python `str.lstrip()`, and the `\s*` regex parts). -/
def dropWs (s : Str) : Str := s.dropWhile isPyWs

/-- Python `str.rstrip()`. -/
def pyRstrip (s : Str) : Str := (s.reverse.dropWhile isPyWs).reverse

/-- Python `str.strip()`. -/
def pyStrip (s : Str) : Str := pyRstrip (dropWs s)

/-- Python `content.split("\n")`. -/
def splitLines : Str → List Str
  | [] => [[]]
  | c :: rest =>
    if c = '\n' then [] :: splitLines rest
    else
      match splitLines rest with
      | [] => [[c]]
      | l :: ls => (c :: l) :: ls

/-- Python `"\n".join(lines)`. -/
def joinLines : List Str → Str
  | [] => []
  | [l] => l
  | l :: ls => l ++ '\n' :: joinLines ls

/-- Python `" ".join(parts)`. -/
def spaceJoin : List Str → Str
  | [] => []
  | [l] => l
  | l :: ls => l ++ ' ' :: spaceJoin ls

/-- Python substring containment: `pat in s`. -/
def containsSub (pat : Str) : Str → Bool
  | [] => pat = ([] : Str)
  | c :: rest => pat.isPrefixOf (c :: rest) || containsSub pat rest

/-- The part of `s` strictly before the first occurrence of `pat`
(Python `s.split(pat)[0]`, for `pat` that occurs in `s`; when `pat` is absent
this is all of `s`, matching `split`'s single-element result). -/
def takeBefore (pat : Str) : Str → Str
  | [] => []
  | c :: rest => if pat.isPrefixOf (c :: rest) then [] else c :: takeBefore pat rest

/-- The part of `s` strictly after the first occurrence of `pat`, when present
(Python `s.split(pat, 1)[-1]` when `pat` occurs in `s`). -/
def afterFirstOpt (pat : Str) : Str → Option Str
  | [] => none
  | c :: rest =>
    if pat.isPrefixOf (c :: rest) then some (rest.drop (pat.length - 1))
    else afterFirstOpt pat rest

/-- Python `s.split(pat, 1)[-1]`: for absent `pat`, `split` returns `[s]` so the
result is `s` itself. -/
def afterFirst (pat s : Str) : Str := (afterFirstOpt pat s).getD s

/-- Worker for `pyReplace`. The fuel is a bound on the number of scanning
steps; `pyReplace` supplies `s.length`, which always suffices, so the fuel-0
fallback is never taken on a nonempty string. -/
def pyReplaceGo (old new : Str) : Nat → Str → Str
  | _, [] => []
  | 0, s => s
  | fuel + 1, c :: rest =>
    if old ≠ [] ∧ old.isPrefixOf (c :: rest) then
      new ++ pyReplaceGo old new fuel (rest.drop (old.length - 1))
    else
      c :: pyReplaceGo old new fuel rest

/-- Python `s.replace(old, new)` for nonempty `old`: replace every
non-overlapping occurrence, scanning left to right; inserted text is not
rescanned. -/
def pyReplace (old new s : Str) : Str := pyReplaceGo old new s.length s

/-- Python `s.lower()` (ASCII case folding, which is all the code needs for
`Accept`-header sniffing). -/
def lowerStr (s : Str) : Str := s.map Char.toLower

/-- Lexicographic order on strings by code point, as Python `sorted` uses. -/
def strLe : Str → Str → Bool
  | [], _ => true
  | _ :: _, [] => false
  | a :: as, b :: bs => if a = b then strLe as bs else decide (a < b)

/-- Python `sorted(strings)`. -/
def sortStrs (l : List Str) : List Str :=
  List.insertionSort (fun a b : Str => strLe a b = true) l

/-- What one filesystem read of a given path can produce: the path is absent,
or it exists but reading raises, or reading yields content. -/
inductive FileResult where
  | missing
  | unreadable
  | readable (content : Str)
deriving DecidableEq

/-- The filesystem as the include resolver sees it: each include path
(resolved against the base directory) reads to a `FileResult`. -/
abbrev FS := Str → FileResult

-- String literals used by the source, as named constants.

def includeMarkerA : Str := "# INCLUDE_FILE:".toList

def templateMarker : Str := "# <TEMPLATE>".toList

def sourceMarker : Str := "source ".toList

def dotSpaceMarker : Str := ". ".toList

def toolNameToken : Str := "<TOOL_NAME>".toList

def serverUrlToken : Str := "<SERVER_URL>".toList

def baseUrlToken : Str := "<BASE_URL>".toList

def gitShaToken : Str := "<GIT_COMMIT_SHA>".toList

def sentinelLine : Str := "TOOLS=\"nmap curl curl-openssl column socat\"".toList

def toolsAssignOpen : Str := "TOOLS=\"".toList

def quoteS : Str := "\"".toList

def poorS : Str := "poor".toList

def allS : Str := "all".toList

def hashS : Str := "#".toList

def hashSpaceS : Str := "# ".toList

def shebangS : Str := "#!".toList

def descMarker : Str := "# description:".toList

def iconMarker : Str := "# icon:".toList

def versionMarker : Str := "# version:".toList

def colonS : Str := ":".toList

def emDashS : Str := "—".toList

def dashOnlyS : Str := "-".toList

def emDashSuffixS : Str := " —".toList

def dashSuffixS : Str := " -".toList

def mainPyS : Str := "main.py".toList

def dotS : Str := ".".toList

def pkgDirS : Str := "poor_installer_web".toList

def jsonS : Str := "json".toList

def nlS : Str := "\n".toList

def beginIncMark : Str := "# BEGIN INCLUDE: ".toList

def endIncMark : Str := "# END INCLUDE: ".toList

/-- The shared read-or-degrade step of `process_includes`
(`src/poor_installer_web/app.py:402-414` and `431-445`): a readable file
contributes its trailing-whitespace-trimmed content as one appended chunk
(nothing at all if that trim is empty); a missing or unreadable file keeps the
original directive line. -/
def includeAppend (fs : FS) (path line : Str) : List Str :=
  match fs path with
  | .readable c =>
    let c2 := pyRstrip c
    if c2 = [] then [] else [c2]
  | .unreadable => [line]
  | .missing => [line]

/-- One line of `process_includes` (`src/poor_installer_web/app.py:396-448`):
Form A is a stripped line starting with `# INCLUDE_FILE:`; Form B is a line
containing `# <TEMPLATE>` whose part before the marker, stripped, starts with
`source ` or `. `; anything else passes through. -/
def processLineApp (fs : FS) (line : Str) : List Str :=
  if includeMarkerA.isPrefixOf (pyStrip line) then
    let includePath := pyStrip ((pyStrip line).drop includeMarkerA.length)
    includeAppend fs includePath line
  else if containsSub templateMarker line then
    let sourcePart := pyStrip (takeBefore templateMarker line)
    if sourceMarker.isPrefixOf sourcePart then
      includeAppend fs (pyStrip (sourcePart.drop sourceMarker.length)) line
    else if dotSpaceMarker.isPrefixOf sourcePart then
      includeAppend fs (pyStrip (sourcePart.drop dotSpaceMarker.length)) line
    else [line]
  else [line]

/-- `process_includes` of `src/poor_installer_web/app.py:385-450`: split on
newlines, process each line, join the appended chunks with newlines. -/
def process_includes (content : Str) (fs : FS) : Str :=
  joinLines ((splitLines content).flatMap (processLineApp fs))

/-- The Form A parse on its own: the include path the Form A branch of
`processLineApp` would extract. -/
def formAPath (line : Str) : Option Str :=
  if includeMarkerA.isPrefixOf (pyStrip line) then
    some (pyStrip ((pyStrip line).drop includeMarkerA.length))
  else none

/-- The Form B parse on its own: the include path the Form B branch of
`processLineApp` would extract (none when the marker is absent or the part
before it has no `source `/`. ` shape). -/
def formBPath (line : Str) : Option Str :=
  if containsSub templateMarker line then
    let sourcePart := pyStrip (takeBefore templateMarker line)
    if sourceMarker.isPrefixOf sourcePart then
      some (pyStrip (sourcePart.drop sourceMarker.length))
    else if dotSpaceMarker.isPrefixOf sourcePart then
      some (pyStrip (sourcePart.drop dotSpaceMarker.length))
    else none
  else none

/-- The include path a line is recognized to carry, Form A taking precedence
exactly as in the code's `if`/`elif` chain. -/
def directivePath (line : Str) : Option Str :=
  match formAPath line with
  | some p => some p
  | none => formBPath line

/-- The regex match of `src/main.py:72`
(`^\s*#\s*INCLUDE_FILE:\s*(.+?)\s*$`, then `group(1).strip()`): the match
succeeds exactly when something (even whitespace) follows `INCLUDE_FILE:`,
and the stripped group is the stripped remainder. -/
def mainIncludePath (line : Str) : Option Str :=
  let s := dropWs line
  if hashS.isPrefixOf s then
    let s2 := dropWs (s.drop 1)
    if ("INCLUDE_FILE:".toList).isPrefixOf s2 then
      let rest := s2.drop 13
      if rest = [] then none else some (pyStrip rest)
    else none
  else none

/-- One line of `process_includes` in `src/main.py:70-91`: a readable include
is wrapped in `# BEGIN INCLUDE:`/`# END INCLUDE:` marker lines; missing or
unreadable targets keep the original line. -/
def processLineMain (fs : FS) (line : Str) : List Str :=
  match mainIncludePath line with
  | some path =>
    match fs path with
    | .readable c => [beginIncMark ++ path, pyRstrip c, endIncMark ++ path]
    | .unreadable => [line]
    | .missing => [line]
  | none => [line]

/-- `process_includes` of `src/main.py:62-93`. -/
def process_includes_main (content : Str) (fs : FS) : Str :=
  joinLines ((splitLines content).flatMap (processLineMain fs))

/-- `apply_common_placeholders` (`src/poor_installer_web/app.py:453-462`):
replace `<BASE_URL>` with the server URL, then `<GIT_COMMIT_SHA>` with the
injected version string. -/
def apply_common_placeholders (content serverUrl version : Str) : Str :=
  pyReplace gitShaToken version (pyReplace baseUrlToken serverUrl content)

/-- Tool metadata as `extract_script_metadata` builds it. -/
structure Metadata where
  name : Str
  description : Str
  icon : Str
  version : Str
deriving DecidableEq

/-- The header scan of `extract_script_metadata`
(`src/poor_installer_web/app.py:131-151`): every line is stripped; the three
marker prefixes update fields (the description slice is `line[13:]`, which
keeps the colon, removed by the follow-up check); the scan stops at the first
stripped line that is nonempty and not a comment. There is no line-count cap. -/
def scanMeta (currentVersion : Str) : List Str → Metadata → Metadata
  | [], m => m
  | line :: rest, m =>
    let s := pyStrip line
    if descMarker.isPrefixOf s then
      let desc := pyStrip (s.drop 13)
      let desc := if colonS.isPrefixOf desc then pyStrip (desc.drop 1) else desc
      scanMeta currentVersion rest { m with description := desc }
    else if iconMarker.isPrefixOf s then
      scanMeta currentVersion rest { m with icon := pyStrip (s.drop iconMarker.length) }
    else if versionMarker.isPrefixOf s then
      let v := pyStrip (s.drop versionMarker.length)
      let v := if v = gitShaToken then currentVersion else v
      scanMeta currentVersion rest { m with version := v }
    else if s ≠ [] ∧ ¬ hashS.isPrefixOf s then m
    else scanMeta currentVersion rest m

/-- `extract_script_metadata` (`src/poor_installer_web/app.py:121-155`): a
file that cannot be opened or read yields the defaults (empty description and
icon, current version) because the `OSError` handler swallows the failure. -/
def extract_script_metadata (name : Str) (file : FileResult) (currentVersion : Str) :
    Metadata :=
  match file with
  | .readable c => scanMeta currentVersion (splitLines c) (Metadata.mk name [] [] currentVersion)
  | .unreadable => Metadata.mk name [] [] currentVersion
  | .missing => Metadata.mk name [] [] currentVersion

/-- The scan of `get_tool_description` (`src/poor_installer_web/app.py:212-226`),
applied to the (at most 10) lines it examines: either the `# description:`
header, or the inline `# <name> — <desc>` / `# <name> - <desc>` form, whose
result is the text after the first em dash, then after the first hyphen,
stripped. Unlike `scanMeta` it does not stop at non-comment lines. -/
def descScan (toolName : Str) : List Str → Str
  | [] => []
  | line :: rest =>
    let s := pyStrip line
    if descMarker.isPrefixOf s then pyStrip (s.drop descMarker.length)
    else if (hashSpaceS ++ toolName ++ emDashSuffixS).isPrefixOf s
        || (hashSpaceS ++ toolName ++ dashSuffixS).isPrefixOf s then
      pyStrip (afterFirst dashOnlyS (afterFirst emDashS s))
    else descScan toolName rest

/-- `get_tool_description` (`src/poor_installer_web/app.py:205-230`): only the
first 10 lines are examined (`if line_num >= 10: break`); a missing file or
any exception yields the empty string. -/
def get_tool_description (file : FileResult) (toolName : Str) : Str :=
  match file with
  | .readable c => descScan toolName ((splitLines c).take 10)
  | .unreadable => []
  | .missing => []

/-- `is_script_file` (`src/poor_installer_web/app.py:175-186`): the file must
exist, be readable, and its first line stripped must start with `#!`. -/
def is_script_file : FileResult → Bool
  | .readable c => shebangS.isPrefixOf (pyStrip ((splitLines c).headD []))
  | .unreadable => false
  | .missing => false

/-- The filter of `discover_tools` (`src/poor_installer_web/app.py:194-200`):
script files, excluding the `main.py` denylist entry and hidden names. -/
def eligibleEntry (e : Str × FileResult) : Bool :=
  is_script_file e.2 && !(e.1 == mainPyS) && !(dotS.isPrefixOf e.1)

/-- `discover_tools` (`src/poor_installer_web/app.py:189-202`) over a modelled
directory listing (iteration order of `iterdir`, each name with its read
outcome): filter, then sort lexicographically. -/
def discover_tools (entries : List (Str × FileResult)) : List Str :=
  sortStrs ((entries.filter eligibleEntry).map Prod.fst)

/-- Directory entries sorted by name, as `sorted(BASE_DIR.glob("poor*"))`
orders paths within one directory. -/
def sortEntries (l : List (Str × FileResult)) : List (Str × FileResult) :=
  List.insertionSort (fun a b : Str × FileResult => strLe a.1 b.1 = true) l

/-- `get_all_tools_metadata` (`src/poor_installer_web/app.py:158-168`): every
existing `poor*` entry other than `poor_installer_web`, sorted by name, each
with its extracted metadata. -/
def get_all_tools_metadata (entries : List (Str × FileResult)) (currentVersion : Str) :
    List Metadata :=
  (sortEntries (entries.filter (fun e =>
      poorS.isPrefixOf e.1 && is_file e.2 && !(e.1 == pkgDirS)))).map
    (fun e => extract_script_metadata e.1 e.2 currentVersion)
where
  /-- `script_path.is_file()`: true for anything present on disk. -/
  is_file : FileResult → Bool
    | .missing => false
    | _ => true

/-- `normalize_tool_name` (`src/poor_installer_web/app.py:259-279`): exact
match, then `poor`-prefixed match, then (only for names already carrying the
prefix) the first discovered tool equal to the bare or re-prefixed name. -/
def normalize_tool_name (discovered : List Str) (toolName : Str) : Option Str :=
  if toolName ∈ discovered then some toolName
  else
    let poorName := poorS ++ toolName
    if poorName ∈ discovered then some poorName
    else if poorS.isPrefixOf toolName then
      let noPoor := toolName.drop 4
      discovered.find? (fun t => t == noPoor || t == poorS ++ noPoor)
    else none

/-- Outcome of a content-producing handler: 404, 500, or a body. -/
inductive GenResult where
  | notFound
  | serverError
  | ok (content : Str)
deriving DecidableEq

/-- `get_file_content` (`src/poor_installer_web/app.py:465-482`): missing file
is a 404, a read failure a 500; includes are processed only when templating is
enabled. -/
def get_file_content (file : FileResult) (noTemplating : Bool) (fs : FS) : GenResult :=
  match file with
  | .missing => .notFound
  | .unreadable => .serverError
  | .readable content =>
    .ok (if noTemplating then content else process_includes content fs)

/-- The shared body of `get_tool_script` (`src/poor_installer_web/app.py:810-814`)
and `_serve_installer` (`src/poor_installer_web/app.py:727-739`), after name
resolution: fetch the file, and apply the placeholder substitutor only when
templating is enabled. -/
def serve_tool_script (file : FileResult) (noTemplating : Bool) (fs : FS)
    (serverUrl version : Str) : GenResult :=
  match get_file_content file noTemplating fs with
  | .ok content =>
    .ok (if noTemplating then content else apply_common_placeholders content serverUrl version)
  | r => r

/-- The tool-list loop of `generate_tool_installer`
(`src/poor_installer_web/app.py:360-366`): strip the `poor` prefix where
present, keep other names unchanged. -/
def bundleToolNames (tools : List Str) : List Str :=
  tools.foldl (fun acc tool =>
    acc ++ [if poorS.isPrefixOf tool then tool.drop 4 else tool]) []

/-- `generate_tool_installer` (`src/poor_installer_web/app.py:340-382`): a
missing template is a 404; `<TOOL_NAME>` and `<SERVER_URL>` are replaced
unconditionally; for target `"all"` the hardcoded `TOOLS="..."` sentinel line
is replaced by the space-joined discovered names; includes are processed only
when templating is enabled. -/
def generate_tool_installer (template : FileResult) (toolName serverUrl : Str)
    (noTemplating : Bool) (entries : List (Str × FileResult)) (fs : FS) : GenResult :=
  match template with
  | .missing => .notFound
  | .unreadable => .serverError
  | .readable content =>
    let content := pyReplace toolNameToken toolName content
    let content := pyReplace serverUrlToken serverUrl content
    let content :=
      if toolName = allS then
        let toolNames := bundleToolNames (discover_tools entries)
        let toolsStr := spaceJoin toolNames
        pyReplace sentinelLine (toolsAssignOpen ++ toolsStr ++ quoteS) content
      else content
    if noTemplating then .ok content else .ok (process_includes content fs)

/-- The structured `/list` body: exactly the four keys the handler emits. -/
structure ListJson where
  server_url : Str
  version : Str
  tools : List Metadata
  count : Nat
deriving DecidableEq

/-- A `/list` response: JSON body or plain-text body. -/
inductive ListResponse where
  | jsonBody (j : ListJson)
  | textBody (t : Str)
deriving DecidableEq

/-- The `/list` handler (`src/poor_installer_web/app.py:625-646`): an `Accept`
header whose lowercasing contains `json` selects the structured body
(`server_url`, `version`, `tools`, `count = len(tools)`); otherwise the body is
the sorted tool names, newline-joined, with a trailing newline. -/
def list_tools_handler (acceptHeader serverUrl version : Str)
    (entries : List (Str × FileResult)) : ListResponse :=
  if containsSub jsonS (lowerStr acceptHeader) then
    let tools := get_all_tools_metadata entries version
    .jsonBody (ListJson.mk serverUrl version tools tools.length)
  else
    .textBody (joinLines (sortStrs (discover_tools entries)) ++ nlS)

/-- The spec-side reading of the bundle list ("the discovered tool names with
the fixed prefix stripped"): a pointwise map over the discovered names. -/
def stripPoorSpec (t : Str) : Str :=
  if poorS.isPrefixOf t then t.drop 4 else t

-- Concrete fixtures used to instantiate the theorems on sample inputs.

def fsMissing : FS := fun _ => FileResult.missing

def urlDemo : Str := "http://demo.host".toList

def verDemo : Str := "v1.2.3".toList

def curlS : Str := "curl".toList

def poorcurlS : Str := "poorcurl".toList

def doesnotexistS : Str := "doesnotexist".toList

def nameDemo : Str := "poorx".toList

def lateS : Str := "late".toList

def hiS : Str := "hi".toList

def codeLineS : Str := "x=1".toList

def descLineS : Str := "# description: hi".toList

def c7content : Str :=
  "# 1\n# 2\n# 3\n# 4\n# 5\n# 6\n# 7\n# 8\n# 9\n# 10\n# description: late".toList

def c7content2 : Str := "x=1\n# description: hi".toList

def preDemo : List Str := [ "#!/bin/sh".toList]

def sufDemo : List Str := [ "echo ok".toList]

def c2line : Str := "# INCLUDE_FILE: lib/gone.sh".toList

def c2path : Str := "lib/gone.sh".toList

def c3content : Str := "#!/bin/sh\necho hello".toList

def c4line : Str := "# INCLUDE_FILE: lib/a.sh".toList

def c4path : Str := "lib/a.sh".toList

def c4nested : Str := "# INCLUDE_FILE: lib/b.sh".toList

def c4fs : FS := fun q => if q = c4path then FileResult.readable c4nested else FileResult.missing

def c5line : Str := "source lib/empty.sh # <TEMPLATE>".toList

def c5path : Str := "lib/empty.sh".toList

def wsOnlyS : Str := "  \n  ".toList

def c5fs : FS := fun q => if q = c5path then FileResult.readable wsOnlyS else FileResult.missing

def plainScriptS : Str :=
  "#!/bin/sh\n# INCLUDE_FILE: lib/a.sh\nsource lib/b.sh # <TEMPLATE>\necho <BASE_URL>".toList

def acceptJsonS : Str := "application/JSON".toList

def pooraS : Str := "poora".toList

def poorbS : Str := "poorb".toList

def shebangOnlyS : Str := "#!/bin/sh".toList

def c8entries : List (Str × FileResult) :=
  [(poorbS, FileResult.readable shebangOnlyS), (pooraS, FileResult.readable shebangOnlyS)]

-- ## Shared lemmas

lemma splitLines_ne_nil (s : Str) : splitLines s ≠ [] := by
  induction s with
  | nil => simp [splitLines]
  | cons c rest ih =>
    simp only [splitLines]
    split
    · simp
    · cases h : splitLines rest <;> simp

lemma joinLines_cons (l : Str) (ls : List Str) (h : ls ≠ []) :
    joinLines (l :: ls) = l ++ '\n' :: joinLines ls := by
  cases ls with
  | nil => exact absurd rfl h
  | cons a as => rfl

lemma joinLines_splitLines (s : Str) : joinLines (splitLines s) = s := by
  induction s with
  | nil => rfl
  | cons c rest ih =>
    by_cases h : c = '\n'
    · subst h
      have h1 : splitLines ('\n' :: rest) = [] :: splitLines rest := by
        simp [splitLines]
      rw [h1, joinLines_cons _ _ (splitLines_ne_nil rest), ih]
      rfl
    · cases hr : splitLines rest with
      | nil => exact absurd hr (splitLines_ne_nil rest)
      | cons l ls =>
        have h1 : splitLines (c :: rest) = (c :: l) :: ls := by
          simp [splitLines, h, hr]
        rw [hr] at ih
        rw [h1]
        cases ls with
        | nil =>
          simp only [joinLines] at ih ⊢
          rw [ih]
        | cons a as =>
          rw [joinLines_cons _ _ (by simp), List.cons_append]
          rw [joinLines_cons _ _ (by simp)] at ih
          rw [ih]

lemma splitLines_no_nl (l : Str) (h : '\n' ∉ l) : splitLines l = [l] := by
  induction l with
  | nil => rfl
  | cons c rest ih =>
    simp only [List.mem_cons, not_or] at h
    have hc : ¬ c = '\n' := fun he => h.1 he.symm
    simp [splitLines, hc, ih h.2]

lemma splitLines_append_nl (l r : Str) (h : '\n' ∉ l) :
    splitLines (l ++ '\n' :: r) = l :: splitLines r := by
  induction l with
  | nil => simp [splitLines]
  | cons c rest ih =>
    simp only [List.mem_cons, not_or] at h
    have hc : ¬ c = '\n' := fun he => h.1 he.symm
    simp only [List.cons_append, splitLines, if_neg hc]
    rw [show rest.append ('\n' :: r) = rest ++ '\n' :: r from rfl, ih h.2]

lemma splitLines_joinLines (ls : List Str) (hne : ls ≠ [])
    (h : ∀ l ∈ ls, '\n' ∉ l) : splitLines (joinLines ls) = ls := by
  induction ls with
  | nil => exact absurd rfl hne
  | cons l rest ih =>
    cases rest with
    | nil => exact splitLines_no_nl l (h l (by simp))
    | cons a as =>
      rw [joinLines_cons _ _ (by simp),
        splitLines_append_nl _ _ (h l (by simp)),
        ih (by simp) (fun x hx => h x (by simp [hx]))]

lemma pyReplaceGo_fuelIrrel (old new : Str) (f1 : Nat) :
    ∀ (f2 : Nat) (s : Str), s.length ≤ f1 → s.length ≤ f2 →
      pyReplaceGo old new f1 s = pyReplaceGo old new f2 s := by
  induction f1 with
  | zero =>
    intro f2 s h1 _
    have : s = [] := List.eq_nil_of_length_eq_zero (Nat.le_zero.mp h1)
    subst this
    cases f2 <;> rfl
  | succ f ih =>
    intro f2 s h1 h2
    cases s with
    | nil => cases f2 <;> rfl
    | cons c rest =>
      cases f2 with
      | zero => simp at h2
      | succ g =>
        have hr1 : rest.length ≤ f := by simp at h1; omega
        have hr2 : rest.length ≤ g := by simp at h2; omega
        have hd : (rest.drop (old.length - 1)).length ≤ rest.length := by
          simp [List.length_drop]
        simp only [pyReplaceGo]
        split
        · exact congrArg (new ++ ·) (ih g _ (le_trans hd hr1) (le_trans hd hr2))
        · exact congrArg (c :: ·) (ih g rest hr1 hr2)

lemma pyReplaceGo_not_contains (old new : Str) (fuel : Nat) :
    ∀ s : Str, containsSub old s = false → pyReplaceGo old new fuel s = s := by
  induction fuel with
  | zero => intro s _; cases s <;> rfl
  | succ f ih =>
    intro s h
    cases s with
    | nil => rfl
    | cons c rest =>
      simp only [containsSub, Bool.or_eq_false_iff] at h
      simp only [pyReplaceGo]
      rw [if_neg (fun hc => by simp [h.1] at hc)]
      exact congrArg (c :: ·) (ih rest h.2)

/-- If the pattern does not occur in the string, `replace` is the identity. -/
lemma pyReplace_not_contains (old new s : Str) (h : containsSub old s = false) :
    pyReplace old new s = s :=
  pyReplaceGo_not_contains old new s.length s h

lemma isPrefixOf_append_self (l b : Str) : List.isPrefixOf l (l ++ b) = true := by
  simp [List.isPrefixOf_iff_prefix]

/-- A replacement at the very front: the pattern match is found at position 0,
the replacement is emitted, and scanning resumes after the pattern. -/
lemma pyReplace_front (old new b : Str) (h : old ≠ []) :
    pyReplace old new (old ++ b) = new ++ pyReplace old new b := by
  cases old with
  | nil => exact absurd rfl h
  | cons o os =>
    show pyReplaceGo _ _ ((o :: os ++ b).length) (o :: (os ++ b)) = _
    have hlen : (o :: os ++ b).length = (os ++ b).length + 1 := by simp
    rw [hlen]
    simp only [pyReplaceGo]
    rw [if_pos ⟨h, isPrefixOf_append_self (o :: os) b⟩]
    have hdrop : (os ++ b).drop ((o :: os).length - 1) = b := by
      simp [List.drop_left os b]
    rw [hdrop]
    exact congrArg (new ++ ·)
      (pyReplaceGo_fuelIrrel _ _ _ _ _ (by simp) (le_refl _))

lemma processLineApp_eq (fs : FS) (line : Str) :
    processLineApp fs line =
      match directivePath line with
      | some p => includeAppend fs p line
      | none => [line] := by
  unfold processLineApp directivePath formAPath formBPath
  by_cases h1 : includeMarkerA.isPrefixOf (pyStrip line)
  · simp [h1]
  · simp only [h1, Bool.false_eq_true, if_false, if_neg]
    by_cases h2 : containsSub templateMarker line
    · simp only [h2, if_true]
      by_cases h3 : sourceMarker.isPrefixOf (pyStrip (takeBefore templateMarker line))
      · simp [h3]
      · simp only [h3, Bool.false_eq_true, if_false]
        by_cases h4 : dotSpaceMarker.isPrefixOf (pyStrip (takeBefore templateMarker line))
        · simp [h4]
        · simp [h3, h4]
    · simp [h2]

lemma processLineApp_of_none (fs : FS) (line : Str) (h : directivePath line = none) :
    processLineApp fs line = [line] := by
  rw [processLineApp_eq, h]

lemma processLineApp_degraded (fs : FS) (line p : Str)
    (h1 : directivePath line = some p) (h2 : fs p = .missing ∨ fs p = .unreadable) :
    processLineApp fs line = [line] := by
  rw [processLineApp_eq, h1]
  rcases h2 with h2 | h2 <;> simp [includeAppend, h2]

lemma processLineApp_readable (fs : FS) (line p c : Str)
    (h1 : directivePath line = some p) (h2 : fs p = .readable c) :
    processLineApp fs line = if pyRstrip c = [] then [] else [pyRstrip c] := by
  rw [processLineApp_eq, h1]
  simp [includeAppend, h2]

lemma strLe_total : ∀ a b : Str, strLe a b = true ∨ strLe b a = true := by
  intro a
  induction a with
  | nil => intro b; left; rfl
  | cons x xs ih =>
    intro b
    cases b with
    | nil => right; rfl
    | cons y ys =>
      by_cases hxy : x = y
      · subst hxy
        simpa [strLe] using ih ys
      · rcases lt_or_gt_of_ne hxy with h | h
        · left; simp [strLe, hxy, h]
        · right
          have hyx : ¬ y = x := fun he => hxy he.symm
          simp [strLe, hyx, h]

lemma strLe_trans : ∀ a b c : Str, strLe a b = true → strLe b c = true →
    strLe a c = true := by
  intro a
  induction a with
  | nil => intro b c _ _; rfl
  | cons x xs ih =>
    intro b c h1 h2
    cases b with
    | nil => simp [strLe] at h1
    | cons y ys =>
      cases c with
      | nil => simp [strLe] at h2
      | cons z zs =>
        by_cases hxy : x = y <;> by_cases hyz : y = z
        · subst hxy; subst hyz
          simp only [strLe, if_pos rfl] at *
          exact ih ys zs h1 h2
        · subst hxy
          simpa [strLe, hyz] using h2
        · subst hyz
          simpa [strLe, hxy] using h1
        · simp only [strLe, if_neg hxy, decide_eq_true_eq] at h1
          simp only [strLe, if_neg hyz, decide_eq_true_eq] at h2
          have hxz : x < z := lt_trans h1 h2
          simp [strLe, ne_of_lt hxz, hxz]

instance strLeRelTotal : IsTotal Str (fun a b => strLe a b = true) := ⟨strLe_total⟩

instance strLeRelTrans : IsTrans Str (fun a b => strLe a b = true) := ⟨strLe_trans⟩

lemma flatMap_processLineApp_id (fs : FS) (lines : List Str)
    (h : ∀ line ∈ lines, directivePath line = none) :
    lines.flatMap (processLineApp fs) = lines := by
  induction lines with
  | nil => rfl
  | cons l rest ih =>
    rw [List.flatMap_cons, processLineApp_of_none fs l (h l (by simp)),
      ih (fun x hx => h x (by simp [hx]))]
    rfl

lemma flatMap_append_mid (fs : FS) (pre suf : List Str) (line : Str) :
    (pre ++ line :: suf).flatMap (processLineApp fs) =
      pre.flatMap (processLineApp fs) ++ processLineApp fs line
        ++ suf.flatMap (processLineApp fs) := by
  simp [List.flatMap_append, List.flatMap_cons, List.append_assoc]

lemma isPrefixOf_trans_via {a b l : Str} (h1 : List.isPrefixOf a b = true)
    (h2 : List.isPrefixOf b l = true) : List.isPrefixOf a l = true := by
  rw [List.isPrefixOf_iff_prefix] at *
  exact h1.trans h2

lemma bundleToolNames_eq_map (l : List Str) : bundleToolNames l = l.map stripPoorSpec := by
  have key : ∀ (l acc : List Str),
      l.foldl (fun acc tool =>
        acc ++ [if poorS.isPrefixOf tool then tool.drop 4 else tool]) acc =
        acc ++ l.map stripPoorSpec := by
    intro l
    induction l with
    | nil => intro acc; simp
    | cons x xs ih =>
      intro acc
      simp only [List.foldl_cons, List.map_cons, ih, stripPoorSpec, List.append_assoc,
        List.singleton_append]
  simpa [bundleToolNames] using key l []

lemma pyReplace_self_eq (old new : Str) (h : old ≠ []) :
    pyReplace old new old = new := by
  have hnil : pyReplace old new [] = [] := rfl
  have hfr := pyReplace_front old new [] h
  rw [List.append_nil] at hfr
  rw [hfr, hnil, List.append_nil]

-- ## Claim theorems

/-- C2: a recognized include directive (Form A or Form B) whose referenced
file is missing or unreadable is emitted byte-identical to the input, the
expansion does not fail, and all other lines are still processed; the legacy
`src/main.py` resolver degrades the same way. -/
theorem c2_degraded_include (fs : FS) (pre suf : List Str) (line p : Str)
    (h1 : directivePath line = some p)
    (h2 : fs p = FileResult.missing ∨ fs p = FileResult.unreadable)
    (h3 : ∀ l ∈ pre ++ line :: suf, '\n' ∉ l) :
    processLineApp fs line = [line] ∧
    process_includes (joinLines (pre ++ line :: suf)) fs =
      joinLines (pre.flatMap (processLineApp fs) ++ line ::
        suf.flatMap (processLineApp fs)) ∧
    (∀ q, mainIncludePath line = some q →
      (fs q = FileResult.missing ∨ fs q = FileResult.unreadable) →
      processLineMain fs line = [line]) := by
  have hline : processLineApp fs line = [line] := processLineApp_degraded fs line p h1 h2
  refine ⟨hline, ?_, ?_⟩
  · unfold process_includes
    rw [splitLines_joinLines _ (by simp) h3, flatMap_append_mid, hline]
    simp
  · intro q hq hfs
    rcases hfs with hfs | hfs <;> simp [processLineMain, hq, hfs]

/-- C2 witness: a Form A directive pointing at a missing file passes through
and the whole expansion is the identity on the sample content. -/
theorem c2_witness :
    process_includes (joinLines (preDemo ++ c2line :: sufDemo)) fsMissing =
      joinLines (preDemo ++ c2line :: sufDemo) := by
  have h := c2_degraded_include fsMissing preDemo sufDemo c2line c2path
    (by decide) (Or.inl rfl) (by decide)
  rw [h.2.1]
  decide

/-- C3: include expansion is the identity on content none of whose lines is a
recognized directive, and placeholder substitution is the identity on content
containing neither the `<BASE_URL>` nor the `<GIT_COMMIT_SHA>` token; hence
both phases are idempotent on fully-resolved output. -/
theorem c3_idempotent (content : Str) (fs : FS) (url ver : Str) :
    ((∀ line ∈ splitLines content, directivePath line = none) →
      process_includes content fs = content) ∧
    (containsSub baseUrlToken content = false →
      containsSub gitShaToken content = false →
      apply_common_placeholders content url ver = content) := by
  constructor
  · intro h
    unfold process_includes
    rw [flatMap_processLineApp_id fs _ h, joinLines_splitLines]
  · intro h1 h2
    unfold apply_common_placeholders
    rw [pyReplace_not_contains _ _ _ h1, pyReplace_not_contains _ _ _ h2]

/-- C3 witness: both phases are the identity on a sample two-line script with
no directives and no tokens. -/
theorem c3_witness :
    process_includes c3content fsMissing = c3content ∧
    apply_common_placeholders c3content urlDemo verDemo = c3content :=
  ⟨(c3_idempotent c3content fsMissing urlDemo verDemo).1 (by decide),
   (c3_idempotent c3content fsMissing urlDemo verDemo).2 (by decide) (by decide)⟩

/-- C4: expansion is a single non-recursive pass: a directive line whose file
is readable is replaced by the file's trimmed content verbatim, so a nested
directive line inside that content appears unexpanded in the output. -/
theorem c4_nonrecursive (fs : FS) (line p c d : Str)
    (h1 : directivePath line = some p) (h2 : fs p = FileResult.readable c)
    (h3 : '\n' ∉ line) (h4 : d ∈ splitLines (pyRstrip c))
    (h5 : directivePath d ≠ none) :
    process_includes line fs = pyRstrip c ∧
    d ∈ splitLines (process_includes line fs) := by
  have hne : pyRstrip c ≠ [] := by
    intro h0
    rw [h0] at h4
    simp only [splitLines, List.mem_singleton] at h4
    subst h4
    exact h5 (by decide)
  have hmain : process_includes line fs = pyRstrip c := by
    unfold process_includes
    rw [splitLines_no_nl line h3]
    simp only [List.flatMap_cons, List.flatMap_nil, List.append_nil]
    rw [processLineApp_readable fs line p c h1 h2, if_neg hne]
    rfl
  exact ⟨hmain, by rw [hmain]; exact h4⟩

/-- C4 witness: expanding a Form A directive whose target file itself consists
of a directive line yields exactly that nested directive line, unexpanded,
even though the nested target is itself present in the filesystem. -/
theorem c4_witness : process_includes c4line c4fs = c4nested :=
  (c4_nonrecursive c4fs c4line c4path c4nested c4nested
    (by decide) (by decide) (by decide) (by decide) (by decide)).1

/-- C5: a directive whose referenced file reads as empty after trailing
trimming is dropped outright: the output is the join of the other processed
lines, with neither the directive line nor a blank line in its place. -/
theorem c5_empty_include (fs : FS) (pre suf : List Str) (line p c : Str)
    (h1 : directivePath line = some p) (h2 : fs p = FileResult.readable c)
    (h3 : pyRstrip c = []) (h4 : ∀ l ∈ pre ++ line :: suf, '\n' ∉ l) :
    process_includes (joinLines (pre ++ line :: suf)) fs =
      joinLines (pre.flatMap (processLineApp fs) ++ suf.flatMap (processLineApp fs)) := by
  unfold process_includes
  rw [splitLines_joinLines _ (by simp) h4, flatMap_append_mid,
    processLineApp_readable fs line p c h1 h2, if_pos h3]
  simp

/-- C5 witness: a Form B directive whose target is whitespace-only vanishes
from the sample output, leaving no blank line between its neighbours. -/
theorem c5_witness :
    process_includes (joinLines (preDemo ++ c5line :: sufDemo)) c5fs =
      joinLines (preDemo ++ sufDemo) := by
  have h := c5_empty_include c5fs preDemo sufDemo c5line c5path wsOnlyS
    (by decide) (by decide) (by decide) (by decide)
  rw [h]
  decide

/-- C10: include expansion is total and per-line: in both implementations
every line either passes through byte-identical (in particular whenever its
directive's target is missing or unreadable — the caught-exception paths) or
is a recognized directive with a readable target replaced by that file's
content; the whole-content result is exactly the join of the per-line
results, so no failure can propagate. -/
theorem c10_total_expansion (fs : FS) (content : Str) :
    (∀ line : Str,
      processLineApp fs line = [line] ∨
      ∃ p c, directivePath line = some p ∧ fs p = FileResult.readable c ∧
        processLineApp fs line = (if pyRstrip c = [] then [] else [pyRstrip c])) ∧
    (∀ line : Str,
      processLineMain fs line = [line] ∨
      ∃ p c, mainIncludePath line = some p ∧ fs p = FileResult.readable c ∧
        processLineMain fs line = [beginIncMark ++ p, pyRstrip c, endIncMark ++ p]) ∧
    process_includes content fs =
      joinLines ((splitLines content).flatMap (processLineApp fs)) ∧
    process_includes_main content fs =
      joinLines ((splitLines content).flatMap (processLineMain fs)) := by
  refine ⟨?_, ?_, rfl, rfl⟩
  · intro line
    cases hd : directivePath line with
    | none => exact Or.inl (processLineApp_of_none fs line hd)
    | some p =>
      cases hf : fs p with
      | readable c =>
        exact Or.inr ⟨p, c, rfl, hf, processLineApp_readable fs line p c hd hf⟩
      | missing => exact Or.inl (processLineApp_degraded fs line p hd (Or.inl hf))
      | unreadable => exact Or.inl (processLineApp_degraded fs line p hd (Or.inr hf))
  · intro line
    cases hd : mainIncludePath line with
    | none => exact Or.inl (by simp [processLineMain, hd])
    | some p =>
      cases hf : fs p with
      | readable c => exact Or.inr ⟨p, c, rfl, hf, by simp [processLineMain, hd, hf]⟩
      | missing => exact Or.inl (by simp [processLineMain, hd, hf])
      | unreadable => exact Or.inl (by simp [processLineMain, hd, hf])

/-- C6: name resolution tries exact match, then the `poor`-prefixed name, then
(only for names already carrying the prefix) the stripped or re-prefixed bare
name, returning the first hit from the discovered set and `none` otherwise; in
particular, with `poorcurl` discovered, `curl` and `poorcurl` both resolve to
`poorcurl` and `doesnotexist` resolves to `none`. -/
theorem c6_name_resolution :
    normalize_tool_name [poorcurlS] curlS = some poorcurlS ∧
    normalize_tool_name [poorcurlS] poorcurlS = some poorcurlS ∧
    normalize_tool_name [poorcurlS] doesnotexistS = none ∧
    (∀ (d : List Str) (t : Str), t ∈ d → normalize_tool_name d t = some t) ∧
    (∀ (d : List Str) (t r : Str), normalize_tool_name d t = some r → r ∈ d) ∧
    (∀ (d : List Str) (t : Str), normalize_tool_name d t = none →
      t ∉ d ∧ poorS ++ t ∉ d) := by
  refine ⟨by decide, by decide, by decide, ?_, ?_, ?_⟩
  · intro d t h
    simp [normalize_tool_name, h]
  · intro d t r h
    unfold normalize_tool_name at h
    by_cases h1 : t ∈ d
    · rw [if_pos h1] at h
      cases Option.some_inj.mp h
      exact h1
    · rw [if_neg h1] at h
      by_cases h2 : poorS ++ t ∈ d
      · rw [if_pos h2] at h
        cases Option.some_inj.mp h
        exact h2
      · rw [if_neg h2] at h
        by_cases h3 : poorS.isPrefixOf t = true
        · rw [if_pos h3] at h
          exact List.mem_of_find?_eq_some h
        · rw [if_neg h3] at h
          exact absurd h (by simp)
  · intro d t h
    unfold normalize_tool_name at h
    by_cases h1 : t ∈ d
    · rw [if_pos h1] at h
      exact absurd h (by simp)
    · rw [if_neg h1] at h
      by_cases h2 : poorS ++ t ∈ d
      · rw [if_pos h2] at h
        exact absurd h (by simp)
      · exact ⟨h1, h2⟩

/-- C6 witness: the exact-match rule applied to a concrete discovered set. -/
theorem c6_witness : normalize_tool_name [poorcurlS] poorcurlS = some poorcurlS :=
  c6_name_resolution.2.2.2.1 [poorcurlS] poorcurlS (by decide)

/-- C7 counterexample: `extract_script_metadata` finds a `# description:`
header on the 11th line of an all-comment header (so it scans past 10 lines,
where the claim says scanning is capped at 10), while the 10-line-capped
`get_tool_description` finds nothing there; conversely, on a file whose first
line is code, `extract_script_metadata` stops (empty description) but
`get_tool_description` still reads a description from line 2 (so the capped
scan does not stop at the first non-comment line as the claim says). -/
theorem c7_counterexample :
    (extract_script_metadata nameDemo (FileResult.readable c7content) verDemo).description
      = lateS ∧
    get_tool_description (FileResult.readable c7content) nameDemo = [] ∧
    (extract_script_metadata nameDemo (FileResult.readable c7content2) verDemo).description
      = [] ∧
    get_tool_description (FileResult.readable c7content2) nameDemo = hiS ∧
    lateS ≠ [] ∧ hiS ≠ [] := by decide

/-- C7 amended: `extract_script_metadata` scans the whole comment header with
no line cap and stops at the first stripped line that is nonempty and not a
comment; `get_tool_description` examines only the first 10 lines (and no
more); and a missing or unreadable file yields default metadata (empty
description and icon, current version) or the empty description — never an
error. -/
theorem c7_amended_metadata (ver name toolName : Str) (line : Str) (rest : List Str)
    (m : Metadata) (c c2 : Str)
    (hs : pyStrip line ≠ []) (hh : hashS.isPrefixOf (pyStrip line) = false)
    (htake : (splitLines c).take 10 = (splitLines c2).take 10) :
    scanMeta ver (line :: rest) m = m ∧
    get_tool_description (FileResult.readable c) toolName =
      get_tool_description (FileResult.readable c2) toolName ∧
    extract_script_metadata name FileResult.missing ver = Metadata.mk name [] [] ver ∧
    extract_script_metadata name FileResult.unreadable ver = Metadata.mk name [] [] ver ∧
    get_tool_description FileResult.missing toolName = [] ∧
    get_tool_description FileResult.unreadable toolName = [] := by
  have hof : ∀ mk : Str, List.isPrefixOf hashS mk = true →
      ¬ List.isPrefixOf mk (pyStrip line) = true := by
    intro mk hmk hc
    rw [isPrefixOf_trans_via hmk hc] at hh
    exact absurd hh (by simp)
  have hd : ¬ List.isPrefixOf descMarker (pyStrip line) = true := hof _ (by decide)
  have hi : ¬ List.isPrefixOf iconMarker (pyStrip line) = true := hof _ (by decide)
  have hv : ¬ List.isPrefixOf versionMarker (pyStrip line) = true := hof _ (by decide)
  have hstop : pyStrip line ≠ [] ∧ ¬ List.isPrefixOf hashS (pyStrip line) = true :=
    ⟨hs, by simp [hh]⟩
  refine ⟨?_, ?_, rfl, rfl, rfl, rfl⟩
  · simp only [scanMeta]
    rw [if_neg hd, if_neg hi, if_neg hv, if_pos hstop]
  · simp [get_tool_description, htake]

/-- C7 witness: the header scan returns unchanged metadata as soon as it meets
a code line, even when a description header follows it. -/
theorem c7_witness :
    scanMeta verDemo (codeLineS :: [descLineS]) (Metadata.mk nameDemo [] [] verDemo) =
      Metadata.mk nameDemo [] [] verDemo :=
  (c7_amended_metadata verDemo nameDemo nameDemo codeLineS [descLineS]
    (Metadata.mk nameDemo [] [] verDemo) [] [] (by decide) (by decide) rfl).1

/-- C8: the `/list` handler is content-negotiated on the `Accept` header: with
`json` in the lowercased header the response is the structured body with
exactly `server_url`, `version`, `tools` and `count = tools.length`; otherwise
the response is a plain-text body whose lines are exactly the discovered tool
names (a permutation of the eligible directory entries), lexicographically
sorted and newline-joined. -/
theorem c8_list_negotiation (accept url ver : Str)
    (entries : List (Str × FileResult)) :
    (containsSub jsonS (lowerStr accept) = true →
      list_tools_handler accept url ver entries =
        ListResponse.jsonBody (ListJson.mk url ver (get_all_tools_metadata entries ver)
          (get_all_tools_metadata entries ver).length)) ∧
    (containsSub jsonS (lowerStr accept) = false →
      ∃ names : List Str,
        list_tools_handler accept url ver entries =
          ListResponse.textBody (joinLines names ++ nlS) ∧
        names.Perm ((entries.filter eligibleEntry).map Prod.fst) ∧
        List.Pairwise (fun a b : Str => strLe a b = true) names) := by
  constructor
  · intro h
    simp [list_tools_handler, h]
  · intro h
    refine ⟨sortStrs (discover_tools entries), by simp [list_tools_handler, h], ?_, ?_⟩
    · unfold sortStrs discover_tools sortStrs
      exact (List.perm_insertionSort _ _).trans (List.perm_insertionSort _ _)
    · exact List.sorted_insertionSort _ _

/-- C8 witness: a JSON-accepting request over a two-tool directory produces
the structured body with the two metadata records and `count = 2`. -/
theorem c8_witness :
    list_tools_handler acceptJsonS urlDemo verDemo c8entries =
      ListResponse.jsonBody (ListJson.mk urlDemo verDemo
        [Metadata.mk pooraS [] [] verDemo, Metadata.mk poorbS [] [] verDemo] 2) := by
  have h := (c8_list_negotiation acceptJsonS urlDemo verDemo c8entries).1 (by decide)
  rw [h]
  decide

/-- C9: for the bundle (`"all"`) installer the hardcoded `TOOLS="..."` sentinel
line of the template is replaced by `TOOLS="<space-joined list>"`, whose
members are exactly the discovered tool names with the `poor` prefix stripped
(names without the prefix kept unchanged). -/
theorem c9_bundle_tool_list (entries : List (Str × FileResult)) (url : Str) (fs : FS) :
    bundleToolNames (discover_tools entries) =
      (discover_tools entries).map stripPoorSpec ∧
    generate_tool_installer (FileResult.readable sentinelLine) allS url true entries fs =
      GenResult.ok (toolsAssignOpen ++
        spaceJoin (bundleToolNames (discover_tools entries)) ++ quoteS) := by
  refine ⟨bundleToolNames_eq_map _, ?_⟩
  have e1 : pyReplace toolNameToken allS sentinelLine = sentinelLine :=
    pyReplace_not_contains _ _ _ (by decide)
  have e2 : pyReplace serverUrlToken url sentinelLine = sentinelLine :=
    pyReplace_not_contains _ _ _ (by decide)
  simp only [generate_tool_installer, e1, e2, if_pos rfl,
    pyReplace_self_eq sentinelLine _ (by decide), if_true]

/-- C1 counterexample: with `no_templating` set, the generated installer still
substitutes the server-URL token: a template consisting of the bare
`<SERVER_URL>` token comes back with the URL substituted, not verbatim as the
claim requires. -/
theorem c1_counterexample :
    generate_tool_installer (FileResult.readable serverUrlToken) curlS urlDemo true
      [] fsMissing = GenResult.ok urlDemo ∧
    GenResult.ok urlDemo ≠ GenResult.ok serverUrlToken := by decide

/-- C1 amended: the `no_templating` flag fully bypasses both phases for the
raw tool-script and `/installer` endpoints (the body is returned verbatim),
while for the generated per-tool and bundle installers it bypasses only
include expansion (the result no longer depends on the filesystem), and the
template content is returned verbatim only when it contains no `<TOOL_NAME>`
or `<SERVER_URL>` token and no sentinel line. -/
theorem c1_no_templating_scope (c : Str) (fs fs2 : FS) (url ver toolName : Str)
    (entries : List (Str × FileResult)) :
    serve_tool_script (FileResult.readable c) true fs url ver = GenResult.ok c ∧
    generate_tool_installer (FileResult.readable c) toolName url true entries fs =
      generate_tool_installer (FileResult.readable c) toolName url true entries fs2 ∧
    (containsSub toolNameToken c = false → containsSub serverUrlToken c = false →
      containsSub sentinelLine c = false →
      generate_tool_installer (FileResult.readable c) toolName url true entries fs =
        GenResult.ok c) := by
  refine ⟨by simp [serve_tool_script, get_file_content],
    by simp [generate_tool_installer], ?_⟩
  intro h1 h2 h3
  have e1 : pyReplace toolNameToken toolName c = c := pyReplace_not_contains _ _ _ h1
  have e2 : pyReplace serverUrlToken url c = c := pyReplace_not_contains _ _ _ h2
  have e3 : pyReplace sentinelLine
      (toolsAssignOpen ++ spaceJoin (bundleToolNames (discover_tools entries)) ++ quoteS)
      c = c := pyReplace_not_contains _ _ _ h3
  by_cases hall : toolName = allS
  · subst hall
    simp only [generate_tool_installer, e1, e2, if_pos rfl, e3, if_true]
  · simp only [generate_tool_installer, e1, e2, if_neg hall, if_true]

/-- C1 witness: with the flag set, a script containing both directive forms
and the `<BASE_URL>` token is returned verbatim by the generated-installer
path. -/
theorem c1_witness :
    generate_tool_installer (FileResult.readable plainScriptS) curlS urlDemo true
      [] fsMissing = GenResult.ok plainScriptS :=
  (c1_no_templating_scope plainScriptS fsMissing fsMissing urlDemo verDemo curlS
    []).2.2 (by decide) (by decide) (by decide)
